import Mathlib

/-!
Verification of a Go fan-out/fan-in pipeline (`gen` → k parallel `sq` →
`merge`), in two variants:

* `Plain`: the un-cancelled pipeline of `src/main.go` (`gen`, `sq`, `merge`
  without a done channel);
* `Cancel`: the cancellable pipeline of `src/cmd/squaring-numbers/main.go`,
  where every downstream send in `sq` and in the forwarders of `merge` races a
  shared `done` channel inside a `select`.

`gen` is synchronous and is modelled directly on a buffered-channel value.
The concurrent stages are modelled as labelled transition systems over
explicit configurations: each goroutine (a `sq` body, a `merge` forwarder,
the `merge` coordinator) is a small control-state machine, unbuffered
channels are rendezvous steps, the `sync.WaitGroup` is a counter, and the
consumer plus the activation of the done channel are environment steps.
-/

namespace Concurrency

/-- The pure per-item work performed by the `sq` stage: `n * n`. -/
def sqVal (n : Int) : Int := n * n

/-- A Go buffered channel of `Int`: buffer contents in FIFO order, capacity,
whether it has been closed, and how many times `close` was called on it. -/
structure Chan where
  buf : List Int
  cap : Nat
  closed : Bool
  closeCount : Nat
deriving DecidableEq

/-- A send on a buffered channel completes immediately exactly when the
channel is open and the buffer has room; otherwise the operation would
block (full buffer) or fault (closed channel), modelled as `none`. -/
def Chan.send (c : Chan) (v : Int) : Option Chan :=
  if c.closed then none
  else if c.buf.length < c.cap then some { c with buf := c.buf ++ [v] }
  else none

/-- Go `close`: closing an open channel marks it closed; closing an already
closed channel is a runtime fault (`none`). -/
def Chan.closeCh (c : Chan) : Option Chan :=
  if c.closed then none
  else some { c with closed := true, closeCount := c.closeCount + 1 }

/-- Send a whole list of values in order, failing if any single send would
block or fault. -/
def Chan.sendAll (c : Chan) : List Int → Option Chan
  | [] => some c
  | n :: rest => (c.send n).bind (fun c' => c'.sendAll rest)

/-- `gen` from the source: make a channel whose capacity is the length of the
input, send every input value synchronously, close the channel, return it. -/
def gen (nums : List Int) : Option Chan :=
  ((Chan.mk [] nums.length false 0).sendAll nums).bind Chan.closeCh

/-- All the sends of `gen` complete without blocking whenever the buffer has
room for the whole remaining input. -/
lemma Chan.sendAll_ok (nums : List Int) :
    ∀ c : Chan, c.closed = false → c.buf.length + nums.length ≤ c.cap →
      c.sendAll nums = some { c with buf := c.buf ++ nums } := by
  induction nums with
  | nil =>
      intro c _ _
      simp [Chan.sendAll]
  | cons n rest ih =>
      intro c hc hlen
      have hroom : c.buf.length < c.cap := by
        simp [List.length_cons] at hlen
        omega
      have hsend : c.send n = some { c with buf := c.buf ++ [n] } := by
        simp [Chan.send, hc, hroom]
      have hrest :
          Chan.sendAll { c with buf := c.buf ++ [n] } rest
            = some { c with buf := (c.buf ++ [n]) ++ rest } := by
        apply ih
        · simpa using hc
        · simp [List.length_append]
          simp [List.length_cons] at hlen
          omega
      simp [Chan.sendAll, hsend, hrest, List.append_assoc]

/-- Full characterisation of `gen`: it returns a channel holding exactly the
input values in order, with capacity equal to the input length, already
closed, closed exactly once. -/
lemma gen_eq (nums : List Int) :
    gen nums = some (Chan.mk nums nums.length true 1) := by
  have h := Chan.sendAll_ok nums (Chan.mk [] nums.length false 0) rfl (by simp)
  simp [gen, h, Chan.closeCh]

/-- Control state of one worker goroutine body (a `sq` loop or a `merge`
forwarder loop): at its loop head about to read, holding a value it is
blocked sending downstream, or exited. -/
inductive WState where
  | idle : WState
  | sending : Int → WState
  | exited : WState
deriving DecidableEq

/-- The value a worker currently holds ready to send, as a list. -/
def pendL : WState → List Int
  | .sending v => [v]
  | _ => []

/-- The value a worker currently holds ready to send, as a multiset. -/
def pendM (w : WState) : Multiset Int := (pendL w : Multiset Int)

@[simp] lemma pendL_idle : pendL .idle = [] := rfl

@[simp] lemma pendL_sending (v : Int) : pendL (.sending v) = [v] := rfl

@[simp] lemma pendL_exited : pendL .exited = [] := rfl

@[simp] lemma pendM_idle : pendM .idle = 0 := rfl

@[simp] lemma pendM_sending (v : Int) : pendM (.sending v) = {v} := rfl

@[simp] lemma pendM_exited : pendM .exited = 0 := rfl

/-- Termination weight of the control state of a `sq` goroutine. -/
def sqW : WState → Nat
  | .idle => 1
  | .sending _ => 3
  | .exited => 0

/-- Termination weight of the control state of a forwarder goroutine. -/
def fwW : WState → Nat
  | .idle => 1
  | .sending _ => 2
  | .exited => 0

@[simp] lemma sqW_idle : sqW .idle = 1 := rfl

@[simp] lemma sqW_sending (v : Int) : sqW (.sending v) = 3 := rfl

@[simp] lemma sqW_exited : sqW .exited = 0 := rfl

@[simp] lemma fwW_idle : fwW .idle = 1 := rfl

@[simp] lemma fwW_sending (v : Int) : fwW (.sending v) = 2 := rfl

@[simp] lemma fwW_exited : fwW .exited = 0 := rfl

section UpdateLemmas

variable {k : Nat}

/-- Post-composition distributes over `Function.update` on `Fin k`. -/
lemma map_update {β γ : Type} (h : β → γ) (f : Fin k → β) (i : Fin k) (b : β) :
    (fun j => h (Function.update f i b j)) = Function.update (fun j => h (f j)) i (h b) := by
  funext j
  by_cases hj : j = i <;> simp [Function.update, hj]

/-- Updating one summand: the new total plus the old entry equals the old
total plus the new entry. -/
lemma sum_update_add {M : Type} [AddCommMonoid M] (f : Fin k → M) (i : Fin k) (b : M) :
    (∑ j, Function.update f i b j) + f i = (∑ j, f j) + b := by
  rw [Finset.sum_update_of_mem (Finset.mem_univ i)]
  rw [Finset.sdiff_singleton_eq_erase, ← Finset.add_sum_erase Finset.univ f (Finset.mem_univ i)]
  abel

/-- Marking one live worker as exited removes exactly it from the live set. -/
lemma filter_update_exited (f : Fin k → WState) (i : Fin k) :
    (Finset.univ.filter fun j => Function.update f i WState.exited j ≠ WState.exited)
      = (Finset.univ.filter fun j => f j ≠ WState.exited).erase i := by
  ext j
  by_cases hj : j = i <;> simp [Function.update, hj]

/-- Replacing the state of one live worker by another live state leaves the live
set unchanged. -/
lemma filter_update_alive (f : Fin k → WState) (i : Fin k) (b : WState)
    (hb : b ≠ WState.exited) (hi : f i ≠ WState.exited) :
    (Finset.univ.filter fun j => Function.update f i b j ≠ WState.exited)
      = Finset.univ.filter fun j => f j ≠ WState.exited := by
  ext j
  by_cases hj : j = i <;> simp [Function.update, hj, hb, hi]

/-- Counting version of `filter_update_exited`. -/
lemma card_update_exited (f : Fin k → WState) (i : Fin k) (hi : f i ≠ WState.exited) :
    (Finset.univ.filter fun j => Function.update f i WState.exited j ≠ WState.exited).card + 1
      = (Finset.univ.filter fun j => f j ≠ WState.exited).card := by
  rw [filter_update_exited]
  exact Finset.card_erase_add_one (by simp [hi])

/-- Updating one entry under a pointwise map `g`: the new total plus the old
image equals the old total plus the new image. -/
lemma sum_comp_update {β M : Type} [AddCommMonoid M] (g : β → M) (f : Fin k → β)
    (i : Fin k) (b : β) :
    (∑ j, g (Function.update f i b j)) + g (f i) = (∑ j, g (f j)) + g b := by
  have h1 : (∑ j, g (Function.update f i b j))
      = ∑ j, Function.update (fun j => g (f j)) i (g b) j :=
    Finset.sum_congr rfl (by
      intro j _
      by_cases hj : j = i <;> simp [Function.update, hj])
  rw [h1]
  exact sum_update_add _ i _

/-- `sum_comp_update` when the updated entry previously contributed nothing. -/
lemma sum_comp_update_zero {β M : Type} [AddCommMonoid M] (g : β → M) (f : Fin k → β)
    (i : Fin k) (b : β) (h0 : g (f i) = 0) :
    (∑ j, g (Function.update f i b j)) = (∑ j, g (f j)) + g b := by
  have h := sum_comp_update g f i b
  rwa [h0, add_zero] at h

/-- `sum_comp_update` when the new entry contributes nothing. -/
lemma sum_comp_update_zero' {β M : Type} [AddCommMonoid M] (g : β → M) (f : Fin k → β)
    (i : Fin k) (b : β) (h0 : g b = 0) :
    (∑ j, g (Function.update f i b j)) + g (f i) = ∑ j, g (f j) := by
  have h := sum_comp_update g f i b
  rwa [h0, add_zero] at h

/-- If the set of live workers is counted as zero, every worker has exited. -/
lemma all_exited_of_card_zero (f : Fin k → WState)
    (h : (Finset.univ.filter fun j => f j ≠ WState.exited).card = 0) :
    ∀ i, f i = WState.exited := by
  intro i
  by_contra hne
  have hmem : i ∈ Finset.univ.filter fun j => f j ≠ WState.exited := by simp [hne]
  have := Finset.card_pos.mpr ⟨i, hmem⟩
  omega

end UpdateLemmas

/-- Coercion of a cons cell into a multiset. -/
lemma coe_cons (a : Int) (l : List Int) :
    ((a :: l : List Int) : Multiset Int) = {a} + (l : Multiset Int) := by
  rw [← Multiset.cons_coe, Multiset.singleton_add]

/-- Coercion of an append into a multiset. -/
lemma coe_append (l₁ l₂ : List Int) :
    ((l₁ ++ l₂ : List Int) : Multiset Int) = (l₁ : Multiset Int) + (l₂ : Multiset Int) :=
  (Multiset.coe_add l₁ l₂).symm

namespace Plain

/-- Configuration of the un-cancelled pipeline of `src/main.go` with `k`
`sq` instances all reading the one `gen` channel, and `merge` applied to
their `k` output channels.

* `genBuf`: the remaining buffered contents of the `gen` channel (it is closed
  before the pipeline starts, so only the buffer matters);
* `sqs i`: control state of the `i`-th `sq` goroutine (its unbuffered output
  channel is represented by the rendezvous with forwarder `i`);
* `reads i`: the upstream values the `i`-th `sq` instance has received, in
  order;
* `emits i`: the values the `i`-th `sq` instance has sent downstream, in
  order;
* `sqClose i`: how many times the `i`-th `sq` output channel was closed;
* `fwds i`: control state of the `merge` forwarder reading `sq` output `i`;
* `wg`: the `sync.WaitGroup` counter;
* `outClosed` / `outClose`: closed flag and close count of the `merge` output
  channel;
* `consumed`: the values the consumer has received from `merge`, in order. -/
structure Cfg (k : Nat) where
  genBuf : List Int
  sqs : Fin k → WState
  reads : Fin k → List Int
  emits : Fin k → List Int
  sqClose : Fin k → Nat
  fwds : Fin k → WState
  wg : Nat
  outClosed : Bool
  outClose : Nat
  consumed : List Int

/-- Initial configuration: `gen` has already filled and closed its buffered
channel, every goroutine is at its loop head, `wg` holds `len(cs) = k`. -/
def init (S : List Int) (k : Nat) : Cfg k :=
  { genBuf := S
    sqs := fun _ => .idle
    reads := fun _ => []
    emits := fun _ => []
    sqClose := fun _ => 0
    fwds := fun _ => .idle
    wg := k
    outClosed := false
    outClose := 0
    consumed := [] }

/-- One interleaving step of the un-cancelled pipeline.

* `sqRead`: `sq` instance `i`, at `for n := range in`, receives the next
  buffered value and computes `n * n`;
* `sqExit`: `sq` instance `i` sees the closed, drained upstream, leaves the
  loop and closes its output channel;
* `handoff`: rendezvous on `sq` output `i`: the blocked send `out <- n*n`
  pairs with the receive of forwarder `i`;
* `fwdExit`: forwarder `i` sees `sq` output `i` closed and drained, leaves
  its loop and calls `wg.Done()`;
* `consume`: rendezvous on the `merge` output: the blocked send
  of forwarder `i` pairs with the receive of the consumer;
* `closeOut`: the coordinator returns from `wg.Wait()` (counter zero) and
  closes the `merge` output channel. -/
inductive Step : {k : Nat} → Cfg k → Cfg k → Prop where
  | sqRead {k : Nat} (s : Cfg k) (i : Fin k) (v : Int) (rest : List Int)
      (hbuf : s.genBuf = v :: rest) (hsq : s.sqs i = .idle) :
      Step s { s with
        genBuf := rest
        sqs := Function.update s.sqs i (.sending (sqVal v))
        reads := Function.update s.reads i (s.reads i ++ [v]) }
  | sqExit {k : Nat} (s : Cfg k) (i : Fin k)
      (hbuf : s.genBuf = []) (hsq : s.sqs i = .idle) :
      Step s { s with
        sqs := Function.update s.sqs i .exited
        sqClose := Function.update s.sqClose i (s.sqClose i + 1) }
  | handoff {k : Nat} (s : Cfg k) (i : Fin k) (v : Int)
      (hsq : s.sqs i = .sending v) (hf : s.fwds i = .idle) :
      Step s { s with
        sqs := Function.update s.sqs i .idle
        emits := Function.update s.emits i (s.emits i ++ [v])
        fwds := Function.update s.fwds i (.sending v) }
  | fwdExit {k : Nat} (s : Cfg k) (i : Fin k)
      (hf : s.fwds i = .idle) (hsq : s.sqs i = .exited) :
      Step s { s with
        fwds := Function.update s.fwds i .exited
        wg := s.wg - 1 }
  | consume {k : Nat} (s : Cfg k) (i : Fin k) (v : Int)
      (hf : s.fwds i = .sending v) :
      Step s { s with
        fwds := Function.update s.fwds i .idle
        consumed := s.consumed ++ [v] }
  | closeOut {k : Nat} (s : Cfg k)
      (hwg : s.wg = 0) (hout : s.outClosed = false) :
      Step s { s with outClosed := true, outClose := s.outClose + 1 }

/-- Reachability from the initial configuration. -/
def Reach (S : List Int) (k : Nat) (s : Cfg k) : Prop :=
  Relation.ReflTransGen Step (init S k) s

/-- A configuration where no goroutine (nor the consumer rendezvous) can
move: the final at-rest state of an execution. -/
def Terminal {k : Nat} (s : Cfg k) : Prop := ∀ s', ¬ Step s s'

/-- Termination measure for the un-cancelled pipeline. -/
def meas {k : Nat} (s : Cfg k) : Nat :=
  3 * s.genBuf.length + (∑ j, sqW (s.sqs j)) + (∑ j, fwW (s.fwds j))
    + s.wg + (if s.outClosed then 0 else 1)

/-- Inductive invariant of the un-cancelled pipeline.

* `flow`: multiset conservation: consumed items plus in-flight items plus
  squared not-yet-read items account exactly for the squared input;
* `readsSum`: each upstream item has been received by exactly one `sq`
  instance or is still buffered;
* `emitsReads`: each `sq` instance has emitted exactly the squares of the
  values it read, in the order it read them;
* `readsOrd`: with a single `sq` instance, reads happen in upstream order;
* `wgCount`: the WaitGroup counter equals the number of live forwarders;
* `closedWg`: the `merge` output is closed only once the counter is zero;
* `fwdSq`: a forwarder exits only after its `sq` closed its channel;
* `sqBuf`: a `sq` instance exits only once the upstream is drained;
* `sqCloseCount` / `outCloseCount`: each stream is closed exactly once, by
  its owning goroutine, when that goroutine exits. -/
structure Inv (S : List Int) {k : Nat} (s : Cfg k) : Prop where
  flow : (s.consumed : Multiset Int) + (∑ j, pendM (s.fwds j)) + (∑ j, pendM (s.sqs j))
      + ((s.genBuf.map sqVal : List Int) : Multiset Int)
      = ((S.map sqVal : List Int) : Multiset Int)
  readsSum : (∑ j, ((s.reads j : List Int) : Multiset Int)) + (s.genBuf : Multiset Int)
      = (S : Multiset Int)
  emitsReads : ∀ i, s.emits i ++ pendL (s.sqs i) = (s.reads i).map sqVal
  readsOrd : ∀ i, k = 1 → s.reads i ++ s.genBuf = S
  wgCount : s.wg = (Finset.univ.filter fun j => s.fwds j ≠ WState.exited).card
  closedWg : s.outClosed = true → s.wg = 0
  fwdSq : ∀ i, s.fwds i = WState.exited → s.sqs i = WState.exited
  sqBuf : ∀ i, s.sqs i = WState.exited → s.genBuf = []
  sqCloseCount : ∀ i, s.sqClose i = if s.sqs i = WState.exited then 1 else 0
  outCloseCount : s.outClose = if s.outClosed then 1 else 0

/-- The invariant holds initially. -/
theorem inv_init (S : List Int) (k : Nat) : Inv S (init S k) := by
  constructor <;> simp [init]

/-- The invariant is preserved by every step. -/
theorem inv_step {S : List Int} {k : Nat} {s s' : Cfg k}
    (h : Inv S s) (hs : Step s s') : Inv S s' := by
  obtain ⟨flow, readsSum, emitsReads, readsOrd, wgCount, closedWg, fwdSq, sqBuf,
    sqCloseCount, outCloseCount⟩ := h
  cases hs with
  | sqRead i v rest hbuf hsq =>
      have hs1 : (∑ j, pendM (Function.update s.sqs i (WState.sending (sqVal v)) j))
          = (∑ j, pendM (s.sqs j)) + {sqVal v} :=
        sum_comp_update_zero pendM s.sqs i _ (by rw [hsq]; rfl)
      have hr1 : (∑ j, ((Function.update s.reads i (s.reads i ++ [v]) j : List Int) : Multiset Int))
            + (s.reads i : Multiset Int)
          = (∑ j, (s.reads j : Multiset Int)) + ((s.reads i : Multiset Int) + {v}) := by
        have := sum_comp_update (fun l : List Int => (l : Multiset Int)) s.reads i (s.reads i ++ [v])
        rwa [coe_append, Multiset.coe_singleton] at this
      have hr2 : (∑ j, ((Function.update s.reads i (s.reads i ++ [v]) j : List Int) : Multiset Int))
          = (∑ j, (s.reads j : Multiset Int)) + {v} := by
        have h2 : (∑ j, ((Function.update s.reads i (s.reads i ++ [v]) j : List Int) : Multiset Int))
              + (s.reads i : Multiset Int)
            = ((∑ j, (s.reads j : Multiset Int)) + {v}) + (s.reads i : Multiset Int) := by
          rw [hr1]; abel
        exact add_right_cancel h2
      constructor
      case flow =>
        dsimp only
        rw [hbuf, List.map_cons, coe_cons] at flow
        rw [hs1, ← flow]
        abel
      case readsSum =>
        dsimp only
        rw [hbuf, coe_cons] at readsSum
        rw [hr2, ← readsSum]
        abel
      case emitsReads =>
        intro j
        dsimp only
        by_cases hj : j = i
        · subst hj
          have h3 := emitsReads j
          rw [hsq] at h3
          simp at h3
          simp [Function.update, h3]
        · simp [Function.update, hj]
          exact emitsReads j
      case readsOrd =>
        intro j hk1
        dsimp only
        subst hk1
        have hji : j = i := Fin.ext (by have h1 := j.isLt; have h2 := i.isLt; omega)
        subst hji
        simp [Function.update]
        rw [← hbuf]
        exact readsOrd j rfl
      case wgCount => exact wgCount
      case closedWg => exact closedWg
      case fwdSq =>
        intro j hj
        dsimp only at hj ⊢
        have hsqj := fwdSq j hj
        by_cases hji : j = i
        · subst hji
          rw [hsq] at hsqj
          cases hsqj
        · simp [Function.update, hji]
          exact hsqj
      case sqBuf =>
        intro j hj
        dsimp only at hj ⊢
        by_cases hji : j = i
        · subst hji
          simp [Function.update] at hj
        · simp [Function.update, hji] at hj
          have h4 := sqBuf j hj
          rw [hbuf] at h4
          cases h4
      case sqCloseCount =>
        intro j
        dsimp only
        by_cases hji : j = i
        · subst hji
          rw [sqCloseCount j, hsq]
          simp [Function.update]
        · simp [Function.update, hji]
          exact sqCloseCount j
      case outCloseCount => exact outCloseCount
  | sqExit i hbuf hsq =>
      have hs1 : (∑ j, pendM (Function.update s.sqs i WState.exited j))
          = ∑ j, pendM (s.sqs j) := by
        have := sum_comp_update_zero' pendM s.sqs i WState.exited rfl
        rwa [hsq, pendM_idle, add_zero] at this
      constructor
      case flow =>
        dsimp only
        rw [hs1]
        exact flow
      case readsSum => exact readsSum
      case emitsReads =>
        intro j
        dsimp only
        by_cases hji : j = i
        · subst hji
          have h3 := emitsReads j
          rw [hsq] at h3
          simpa [Function.update] using h3
        · simp [Function.update, hji]
          exact emitsReads j
      case readsOrd => exact readsOrd
      case wgCount => exact wgCount
      case closedWg => exact closedWg
      case fwdSq =>
        intro j hj
        dsimp only at hj ⊢
        by_cases hji : j = i
        · subst hji; simp [Function.update]
        · simp [Function.update, hji]
          exact fwdSq j hj
      case sqBuf =>
        intro j _
        exact hbuf
      case sqCloseCount =>
        intro j
        dsimp only
        by_cases hji : j = i
        · subst hji
          have h5 := sqCloseCount j
          rw [hsq] at h5
          simp at h5
          simp [Function.update, h5]
        · simp [Function.update, hji]
          exact sqCloseCount j
      case outCloseCount => exact outCloseCount
  | handoff i v hsq hf =>
      have hs1 : (∑ j, pendM (Function.update s.sqs i WState.idle j)) + {v}
          = ∑ j, pendM (s.sqs j) := by
        have := sum_comp_update_zero' pendM s.sqs i WState.idle rfl
        rwa [hsq, pendM_sending] at this
      have hf1 : (∑ j, pendM (Function.update s.fwds i (WState.sending v) j))
          = (∑ j, pendM (s.fwds j)) + {v} :=
        sum_comp_update_zero pendM s.fwds i _ (by rw [hf]; rfl)
      constructor
      case flow =>
        dsimp only
        rw [← hs1] at flow
        rw [hf1, ← flow]
        abel
      case readsSum => exact readsSum
      case emitsReads =>
        intro j
        dsimp only
        by_cases hji : j = i
        · subst hji
          have h3 := emitsReads j
          rw [hsq] at h3
          simp at h3
          simp [Function.update, h3]
        · simp [Function.update, hji]
          exact emitsReads j
      case readsOrd => exact readsOrd
      case wgCount =>
        dsimp only
        rw [filter_update_alive s.fwds i _ (by simp) (by rw [hf]; simp)]
        exact wgCount
      case closedWg => exact closedWg
      case fwdSq =>
        intro j hj
        dsimp only at hj ⊢
        by_cases hji : j = i
        · subst hji
          simp [Function.update] at hj
        · simp [Function.update, hji] at hj ⊢
          exact fwdSq j hj
      case sqBuf =>
        intro j hj
        dsimp only at hj
        by_cases hji : j = i
        · subst hji
          simp [Function.update] at hj
        · simp [Function.update, hji] at hj
          exact sqBuf j hj
      case sqCloseCount =>
        intro j
        dsimp only
        by_cases hji : j = i
        · subst hji
          have h5 := sqCloseCount j
          rw [hsq] at h5
          simp at h5
          simp [Function.update, h5]
        · simp [Function.update, hji]
          exact sqCloseCount j
      case outCloseCount => exact outCloseCount
  | fwdExit i hf hsq =>
      have hf1 : (∑ j, pendM (Function.update s.fwds i WState.exited j))
          = ∑ j, pendM (s.fwds j) := by
        have := sum_comp_update_zero' pendM s.fwds i WState.exited rfl
        rwa [hf, pendM_idle, add_zero] at this
      constructor
      case flow =>
        dsimp only
        rw [hf1]
        exact flow
      case readsSum => exact readsSum
      case emitsReads => exact emitsReads
      case readsOrd => exact readsOrd
      case wgCount =>
        dsimp only
        have hcard := card_update_exited s.fwds i (by rw [hf]; simp)
        rw [wgCount] at *
        omega
      case closedWg =>
        intro hcl
        dsimp only
        have := closedWg hcl
        omega
      case fwdSq =>
        intro j hj
        dsimp only at hj ⊢
        by_cases hji : j = i
        · subst hji
          exact hsq
        · simp [Function.update, hji] at hj
          exact fwdSq j hj
      case sqBuf => exact sqBuf
      case sqCloseCount => exact sqCloseCount
      case outCloseCount => exact outCloseCount
  | consume i v hf =>
      have hf1 : (∑ j, pendM (Function.update s.fwds i WState.idle j)) + {v}
          = ∑ j, pendM (s.fwds j) := by
        have := sum_comp_update_zero' pendM s.fwds i WState.idle rfl
        rwa [hf, pendM_sending] at this
      constructor
      case flow =>
        dsimp only
        rw [coe_append, Multiset.coe_singleton]
        rw [← hf1] at flow
        rw [← flow]
        abel
      case readsSum => exact readsSum
      case emitsReads => exact emitsReads
      case readsOrd => exact readsOrd
      case wgCount =>
        dsimp only
        rw [filter_update_alive s.fwds i _ (by simp) (by rw [hf]; simp)]
        exact wgCount
      case closedWg => exact closedWg
      case fwdSq =>
        intro j hj
        dsimp only at hj ⊢
        by_cases hji : j = i
        · subst hji
          simp [Function.update] at hj
        · simp [Function.update, hji] at hj
          exact fwdSq j hj
      case sqBuf => exact sqBuf
      case sqCloseCount => exact sqCloseCount
      case outCloseCount => exact outCloseCount
  | closeOut hwg hout =>
      constructor
      case flow => exact flow
      case readsSum => exact readsSum
      case emitsReads => exact emitsReads
      case readsOrd => exact readsOrd
      case wgCount => exact wgCount
      case closedWg =>
        intro _
        exact hwg
      case fwdSq => exact fwdSq
      case sqBuf => exact sqBuf
      case sqCloseCount => exact sqCloseCount
      case outCloseCount =>
        dsimp only
        rw [outCloseCount, hout]
        simp

/-- Every reachable configuration satisfies the invariant. -/
theorem reach_inv {S : List Int} {k : Nat} {s : Cfg k} (hr : Reach S k s) : Inv S s := by
  induction hr with
  | refl => exact inv_init S k
  | tail hab hbc ih => exact inv_step ih hbc

/-- Progress analysis: in a terminal configuration of the un-cancelled
pipeline with at least one `sq` instance, the upstream is drained, every
goroutine has exited, the WaitGroup is at zero and the `merge` output is
closed. -/
theorem terminal_drained {S : List Int} {k : Nat} {s : Cfg k}
    (hk : 0 < k) (h : Inv S s) (hT : Terminal s) :
    s.genBuf = [] ∧ (∀ i, s.sqs i = WState.exited) ∧ (∀ i, s.fwds i = WState.exited)
      ∧ s.wg = 0 ∧ s.outClosed = true := by
  have hsq : ∀ i, s.sqs i = WState.exited := by
    intro i
    cases hoi : s.sqs i with
    | idle =>
        cases hbuf : s.genBuf with
        | nil => exact absurd (Step.sqExit s i hbuf hoi) (hT _)
        | cons v rest => exact absurd (Step.sqRead s i v rest hbuf hoi) (hT _)
    | sending v =>
        cases hfi : s.fwds i with
        | idle => exact absurd (Step.handoff s i v hoi hfi) (hT _)
        | sending w => exact absurd (Step.consume s i w hfi) (hT _)
        | exited =>
            have h2 := h.fwdSq i hfi
            rw [hoi] at h2
            cases h2
    | exited => rfl
  have hbuf : s.genBuf = [] := h.sqBuf ⟨0, hk⟩ (hsq ⟨0, hk⟩)
  have hfwd : ∀ i, s.fwds i = WState.exited := by
    intro i
    cases hfi : s.fwds i with
    | idle => exact absurd (Step.fwdExit s i hfi (hsq i)) (hT _)
    | sending w => exact absurd (Step.consume s i w hfi) (hT _)
    | exited => rfl
  have hwg : s.wg = 0 := by
    rw [h.wgCount]
    have hemp : (Finset.univ.filter fun j => s.fwds j ≠ WState.exited) = ∅ := by
      apply Finset.filter_eq_empty_iff.mpr
      intro j _
      simp [hfwd j]
    rw [hemp]
    simp
  have hcl : s.outClosed = true := by
    cases hc : s.outClosed with
    | false => exact absurd (Step.closeOut s hwg hc) (hT _)
    | true => rfl
  exact ⟨hbuf, hsq, hfwd, hwg, hcl⟩

/-- Every step of the un-cancelled pipeline strictly decreases the measure:
all executions are finite. -/
theorem meas_step {k : Nat} {s s' : Cfg k} (hs : Step s s') : meas s' < meas s := by
  cases hs with
  | sqRead i v rest hbuf hsq =>
      have h1 := sum_comp_update sqW s.sqs i (WState.sending (sqVal v))
      rw [hsq, sqW_idle, sqW_sending] at h1
      simp only [meas, hbuf, List.length_cons]
      omega
  | sqExit i hbuf hsq =>
      have h1 := sum_comp_update sqW s.sqs i WState.exited
      rw [hsq, sqW_idle, sqW_exited, add_zero] at h1
      simp only [meas]
      omega
  | handoff i v hsq hf =>
      have h1 := sum_comp_update sqW s.sqs i WState.idle
      rw [hsq, sqW_idle, sqW_sending] at h1
      have h2 := sum_comp_update fwW s.fwds i (WState.sending v)
      rw [hf, fwW_idle, fwW_sending] at h2
      simp only [meas]
      omega
  | fwdExit i hf hsq =>
      have h2 := sum_comp_update fwW s.fwds i WState.exited
      rw [hf, fwW_idle, fwW_exited, add_zero] at h2
      simp only [meas]
      omega
  | consume i v hf =>
      have h2 := sum_comp_update fwW s.fwds i WState.idle
      rw [hf, fwW_idle, fwW_sending] at h2
      simp only [meas]
      omega
  | closeOut hwg hout =>
      simp [meas, hout]

/-- Start of a concrete complete run of the empty-input single-instance
pipeline. -/
def p0 : Cfg 1 := init [] 1

/-- After the single `sq` instance exits and closes its channel. -/
def p1 : Cfg 1 :=
  { p0 with
    sqs := Function.update p0.sqs 0 .exited
    sqClose := Function.update p0.sqClose 0 (p0.sqClose 0 + 1) }

/-- After the single forwarder exits and calls `wg.Done()`. -/
def p2 : Cfg 1 :=
  { p1 with
    fwds := Function.update p1.fwds 0 .exited
    wg := p1.wg - 1 }

/-- After the coordinator closes the `merge` output: the final state. -/
def p3 : Cfg 1 := { p2 with outClosed := true, outClose := p2.outClose + 1 }

lemma reach_p3 : Reach [] 1 p3 :=
  Relation.ReflTransGen.tail
    (Relation.ReflTransGen.tail
      (Relation.ReflTransGen.tail Relation.ReflTransGen.refl
        (Step.sqExit p0 0 rfl rfl))
      (Step.fwdExit p1 0 rfl rfl))
    (Step.closeOut p2 rfl rfl)

lemma terminal_p3 : Terminal p3 := by
  intro s' h
  cases h with
  | sqRead i v rest hbuf hsq =>
      simp [p3, p2, p1, p0, init] at hbuf
  | sqExit i hbuf hsq =>
      have hi : i = 0 := Subsingleton.elim i 0
      subst hi
      simp [p3, p2, p1, p0, init, Function.update] at hsq
  | handoff i v hsq hf =>
      have hi : i = 0 := Subsingleton.elim i 0
      subst hi
      simp [p3, p2, p1, p0, init, Function.update] at hsq
  | fwdExit i hf hsq =>
      have hi : i = 0 := Subsingleton.elim i 0
      subst hi
      simp [p3, p2, p1, p0, init, Function.update] at hf
  | consume i v hf =>
      have hi : i = 0 := Subsingleton.elim i 0
      subst hi
      simp [p3, p2, p1, p0, init, Function.update] at hf
  | closeOut hwg hout =>
      simp [p3] at hout

end Plain

namespace Cancel

/-- Configuration of the cancellable pipeline of
`src/cmd/squaring-numbers/main.go`: as in `Plain.Cfg`, plus the shared
`done` channel, represented by its closed flag. The consumer and the
single activation of `done` (the `defer close(done)` of main) are environment
steps, so every consumer behaviour is covered. -/
structure Cfg (k : Nat) where
  genBuf : List Int
  sqs : Fin k → WState
  sqClose : Fin k → Nat
  fwds : Fin k → WState
  wg : Nat
  outClosed : Bool
  outClose : Nat
  consumed : List Int
  done : Bool

/-- Initial configuration of the cancellable pipeline. -/
def init (S : List Int) (k : Nat) : Cfg k :=
  { genBuf := S
    sqs := fun _ => .idle
    sqClose := fun _ => 0
    fwds := fun _ => .idle
    wg := k
    outClosed := false
    outClose := 0
    consumed := []
    done := false }

/-- The configuration after `sq` instance `i` leaves its loop: its deferred
`close(out)` runs and the goroutine exits.  Both exit paths of `sq` (range
end, and the `<-done` branch of the `select`) produce this same update. -/
def sqExitTarget {k : Nat} (s : Cfg k) (i : Fin k) : Cfg k :=
  { s with
    sqs := Function.update s.sqs i .exited
    sqClose := Function.update s.sqClose i (s.sqClose i + 1) }

/-- One interleaving step of the cancellable pipeline.

* `sqRead`: `sq` instance `i` receives the next buffered upstream value (the
  `range in` receive is *not* in a `select`, so it does not race `done`);
* `sqExitRange`: `sq` instance `i` sees the drained, closed upstream and
  exits; the deferred close runs;
* `sqExitDone`: `sq` instance `i`, blocked in `select` on `out <- n*n`,
  takes the `<-done` branch and returns; the deferred close runs;
* `handoff`: the send branch of the `select` fires: rendezvous with forwarder `i`;
* `fwdExitRange`: forwarder `i` sees `sq` output `i` closed/drained, its
  deferred `wg.Done()` runs;
* `fwdExitDone`: forwarder `i`, blocked in `select` on `out <- n`, takes the
  `<-done` branch; its deferred `wg.Done()` runs;
* `consume`: rendezvous of the send of forwarder `i` with the consumer;
* `closeOut`: the coordinator returns from `wg.Wait()` and closes `out`;
* `cancel`: the environment (main) closes the `done` channel — at most once,
  matching the single deferred `close(done)` of main. -/
inductive Step : {k : Nat} → Cfg k → Cfg k → Prop where
  | sqRead {k : Nat} (s : Cfg k) (i : Fin k) (v : Int) (rest : List Int)
      (hbuf : s.genBuf = v :: rest) (hsq : s.sqs i = .idle) :
      Step s { s with
        genBuf := rest
        sqs := Function.update s.sqs i (.sending (sqVal v)) }
  | sqExitRange {k : Nat} (s : Cfg k) (i : Fin k)
      (hbuf : s.genBuf = []) (hsq : s.sqs i = .idle) :
      Step s (sqExitTarget s i)
  | sqExitDone {k : Nat} (s : Cfg k) (i : Fin k) (v : Int)
      (hsq : s.sqs i = .sending v) (hd : s.done = true) :
      Step s (sqExitTarget s i)
  | handoff {k : Nat} (s : Cfg k) (i : Fin k) (v : Int)
      (hsq : s.sqs i = .sending v) (hf : s.fwds i = .idle) :
      Step s { s with
        sqs := Function.update s.sqs i .idle
        fwds := Function.update s.fwds i (.sending v) }
  | fwdExitRange {k : Nat} (s : Cfg k) (i : Fin k)
      (hf : s.fwds i = .idle) (hsq : s.sqs i = .exited) :
      Step s { s with
        fwds := Function.update s.fwds i .exited
        wg := s.wg - 1 }
  | fwdExitDone {k : Nat} (s : Cfg k) (i : Fin k) (v : Int)
      (hf : s.fwds i = .sending v) (hd : s.done = true) :
      Step s { s with
        fwds := Function.update s.fwds i .exited
        wg := s.wg - 1 }
  | consume {k : Nat} (s : Cfg k) (i : Fin k) (v : Int)
      (hf : s.fwds i = .sending v) :
      Step s { s with
        fwds := Function.update s.fwds i .idle
        consumed := s.consumed ++ [v] }
  | closeOut {k : Nat} (s : Cfg k)
      (hwg : s.wg = 0) (hout : s.outClosed = false) :
      Step s { s with outClosed := true, outClose := s.outClose + 1 }
  | cancel {k : Nat} (s : Cfg k)
      (hd : s.done = false) :
      Step s { s with done := true }

/-- Reachability from the initial configuration. -/
def Reach (S : List Int) (k : Nat) (s : Cfg k) : Prop :=
  Relation.ReflTransGen Step (init S k) s

/-- No step at all is possible: the final at-rest state of an execution. -/
def Terminal {k : Nat} (s : Cfg k) : Prop := ∀ s', ¬ Step s s'

/-- A step taken by the goroutines of the pipeline itself, as opposed to the
environment: it neither consumes an item nor activates `done`.  After the
consumer has gone away, these are the steps still available. -/
def DrainStep {k : Nat} (s s' : Cfg k) : Prop :=
  Step s s' ∧ s'.consumed = s.consumed ∧ s'.done = s.done

/-- All stages of the cancellable pipeline have terminated: every `sq`
goroutine and every forwarder exited, and the coordinator closed `out`. -/
def AllExited {k : Nat} (s : Cfg k) : Prop :=
  (∀ i, s.sqs i = WState.exited) ∧ (∀ i, s.fwds i = WState.exited) ∧ s.outClosed = true

/-- Termination measure for the cancellable pipeline. -/
def measC {k : Nat} (s : Cfg k) : Nat :=
  3 * s.genBuf.length + (∑ j, sqW (s.sqs j)) + (∑ j, fwW (s.fwds j))
    + s.wg + (if s.done then 0 else 1) + (if s.outClosed then 0 else 1)

/-- Inductive invariant of the cancellable pipeline.  `flow` is an
inequality: cancellation deliberately drops trailing items. -/
structure Inv (S : List Int) {k : Nat} (s : Cfg k) : Prop where
  flow : (s.consumed : Multiset Int) + (∑ j, pendM (s.fwds j)) + (∑ j, pendM (s.sqs j))
      + ((s.genBuf.map sqVal : List Int) : Multiset Int)
      ≤ ((S.map sqVal : List Int) : Multiset Int)
  wgCount : s.wg = (Finset.univ.filter fun j => s.fwds j ≠ WState.exited).card
  closedWg : s.outClosed = true → s.wg = 0
  fwdOrd : ∀ i, s.fwds i = WState.exited → s.sqs i = WState.exited ∨ s.done = true
  sqCloseCount : ∀ i, s.sqClose i = if s.sqs i = WState.exited then 1 else 0
  outCloseCount : s.outClose = if s.outClosed then 1 else 0

/-- The invariant holds initially. -/
theorem invC_init (S : List Int) (k : Nat) : Inv S (init S k) := by
  constructor <;> simp [init]

/-- The invariant is preserved by every step. -/
theorem invC_step {S : List Int} {k : Nat} {s s' : Cfg k}
    (h : Inv S s) (hs : Step s s') : Inv S s' := by
  obtain ⟨flow, wgCount, closedWg, fwdOrd, sqCloseCount, outCloseCount⟩ := h
  cases hs with
  | sqRead i v rest hbuf hsq =>
      have hs1 : (∑ j, pendM (Function.update s.sqs i (WState.sending (sqVal v)) j))
          = (∑ j, pendM (s.sqs j)) + {sqVal v} :=
        sum_comp_update_zero pendM s.sqs i _ (by rw [hsq]; rfl)
      constructor
      case flow =>
        dsimp only
        rw [hbuf, List.map_cons, coe_cons] at flow
        calc (s.consumed : Multiset Int)
              + (∑ j, pendM (s.fwds j))
              + (∑ j, pendM (Function.update s.sqs i (WState.sending (sqVal v)) j))
              + ((rest.map sqVal : List Int) : Multiset Int)
            = (s.consumed : Multiset Int) + (∑ j, pendM (s.fwds j))
              + (∑ j, pendM (s.sqs j))
              + ({sqVal v} + ((rest.map sqVal : List Int) : Multiset Int)) := by
              rw [hs1]; abel
          _ ≤ ((S.map sqVal : List Int) : Multiset Int) := flow
      case wgCount => exact wgCount
      case closedWg => exact closedWg
      case fwdOrd =>
        intro j hj
        dsimp only at hj ⊢
        rcases fwdOrd j hj with hx | hx
        · by_cases hji : j = i
          · subst hji
            rw [hsq] at hx
            cases hx
          · exact Or.inl (by simp [Function.update, hji]; exact hx)
        · exact Or.inr hx
      case sqCloseCount =>
        intro j
        dsimp only
        by_cases hji : j = i
        · subst hji
          rw [sqCloseCount j, hsq]
          simp [Function.update]
        · simp [Function.update, hji]
          exact sqCloseCount j
      case outCloseCount => exact outCloseCount
  | sqExitRange i hbuf hsq =>
      have hs1 : (∑ j, pendM (Function.update s.sqs i WState.exited j))
          = ∑ j, pendM (s.sqs j) := by
        have := sum_comp_update_zero' pendM s.sqs i WState.exited rfl
        rwa [hsq, pendM_idle, add_zero] at this
      constructor
      case flow =>
        simp only [sqExitTarget]
        rw [hs1]
        exact flow
      case wgCount => exact wgCount
      case closedWg => exact closedWg
      case fwdOrd =>
        intro j hj
        simp only [sqExitTarget] at hj ⊢
        by_cases hji : j = i
        · subst hji
          exact Or.inl (by simp [Function.update])
        · rcases fwdOrd j hj with hx | hx
          · exact Or.inl (by simp [Function.update, hji]; exact hx)
          · exact Or.inr hx
      case sqCloseCount =>
        intro j
        simp only [sqExitTarget]
        by_cases hji : j = i
        · subst hji
          have h5 := sqCloseCount j
          rw [hsq] at h5
          simp at h5
          simp [Function.update, h5]
        · simp [Function.update, hji]
          exact sqCloseCount j
      case outCloseCount => exact outCloseCount
  | sqExitDone i v hsq hd =>
      have hs1 : (∑ j, pendM (Function.update s.sqs i WState.exited j)) + {v}
          = ∑ j, pendM (s.sqs j) := by
        have := sum_comp_update_zero' pendM s.sqs i WState.exited rfl
        rwa [hsq, pendM_sending] at this
      constructor
      case flow =>
        simp only [sqExitTarget]
        have hdrop : (∑ j, pendM (Function.update s.sqs i WState.exited j))
            ≤ ∑ j, pendM (s.sqs j) := by
          rw [← hs1]
          exact self_le_add_right _ _
        calc (s.consumed : Multiset Int) + (∑ j, pendM (s.fwds j))
              + (∑ j, pendM (Function.update s.sqs i WState.exited j))
              + ((s.genBuf.map sqVal : List Int) : Multiset Int)
            ≤ (s.consumed : Multiset Int) + (∑ j, pendM (s.fwds j))
              + (∑ j, pendM (s.sqs j))
              + ((s.genBuf.map sqVal : List Int) : Multiset Int) := by
              gcongr
          _ ≤ ((S.map sqVal : List Int) : Multiset Int) := flow
      case wgCount => exact wgCount
      case closedWg => exact closedWg
      case fwdOrd =>
        intro j hj
        simp only [sqExitTarget] at hj ⊢
        by_cases hji : j = i
        · subst hji
          exact Or.inl (by simp [Function.update])
        · rcases fwdOrd j hj with hx | hx
          · exact Or.inl (by simp [Function.update, hji]; exact hx)
          · exact Or.inr hx
      case sqCloseCount =>
        intro j
        simp only [sqExitTarget]
        by_cases hji : j = i
        · subst hji
          have h5 := sqCloseCount j
          rw [hsq] at h5
          simp at h5
          simp [Function.update, h5]
        · simp [Function.update, hji]
          exact sqCloseCount j
      case outCloseCount => exact outCloseCount
  | handoff i v hsq hf =>
      have hs1 : (∑ j, pendM (Function.update s.sqs i WState.idle j)) + {v}
          = ∑ j, pendM (s.sqs j) := by
        have := sum_comp_update_zero' pendM s.sqs i WState.idle rfl
        rwa [hsq, pendM_sending] at this
      have hf1 : (∑ j, pendM (Function.update s.fwds i (WState.sending v) j))
          = (∑ j, pendM (s.fwds j)) + {v} :=
        sum_comp_update_zero pendM s.fwds i _ (by rw [hf]; rfl)
      constructor
      case flow =>
        dsimp only
        calc (s.consumed : Multiset Int)
              + (∑ j, pendM (Function.update s.fwds i (WState.sending v) j))
              + (∑ j, pendM (Function.update s.sqs i WState.idle j))
              + ((s.genBuf.map sqVal : List Int) : Multiset Int)
            = (s.consumed : Multiset Int) + (∑ j, pendM (s.fwds j))
              + (∑ j, pendM (s.sqs j))
              + ((s.genBuf.map sqVal : List Int) : Multiset Int) := by
              rw [hf1, ← hs1]; abel
          _ ≤ ((S.map sqVal : List Int) : Multiset Int) := flow
      case wgCount =>
        dsimp only
        rw [filter_update_alive s.fwds i _ (by simp) (by rw [hf]; simp)]
        exact wgCount
      case closedWg => exact closedWg
      case fwdOrd =>
        intro j hj
        dsimp only at hj ⊢
        by_cases hji : j = i
        · subst hji
          simp [Function.update] at hj
        · simp [Function.update, hji] at hj ⊢
          rcases fwdOrd j hj with hx | hx
          · exact Or.inl hx
          · exact Or.inr hx
      case sqCloseCount =>
        intro j
        dsimp only
        by_cases hji : j = i
        · subst hji
          have h5 := sqCloseCount j
          rw [hsq] at h5
          simp at h5
          simp [Function.update, h5]
        · simp [Function.update, hji]
          exact sqCloseCount j
      case outCloseCount => exact outCloseCount
  | fwdExitRange i hf hsq =>
      have hf1 : (∑ j, pendM (Function.update s.fwds i WState.exited j))
          = ∑ j, pendM (s.fwds j) := by
        have := sum_comp_update_zero' pendM s.fwds i WState.exited rfl
        rwa [hf, pendM_idle, add_zero] at this
      constructor
      case flow =>
        dsimp only
        rw [hf1]
        exact flow
      case wgCount =>
        dsimp only
        have hcard := card_update_exited s.fwds i (by rw [hf]; simp)
        rw [wgCount] at *
        omega
      case closedWg =>
        intro hcl
        dsimp only
        have := closedWg hcl
        omega
      case fwdOrd =>
        intro j hj
        dsimp only at hj ⊢
        by_cases hji : j = i
        · subst hji
          exact Or.inl hsq
        · simp [Function.update, hji] at hj
          exact fwdOrd j hj
      case sqCloseCount => exact sqCloseCount
      case outCloseCount => exact outCloseCount
  | fwdExitDone i v hf hd =>
      have hf1 : (∑ j, pendM (Function.update s.fwds i WState.exited j)) + {v}
          = ∑ j, pendM (s.fwds j) := by
        have := sum_comp_update_zero' pendM s.fwds i WState.exited rfl
        rwa [hf, pendM_sending] at this
      constructor
      case flow =>
        dsimp only
        have hdrop : (∑ j, pendM (Function.update s.fwds i WState.exited j))
            ≤ ∑ j, pendM (s.fwds j) := by
          rw [← hf1]
          exact self_le_add_right _ _
        calc (s.consumed : Multiset Int)
              + (∑ j, pendM (Function.update s.fwds i WState.exited j))
              + (∑ j, pendM (s.sqs j))
              + ((s.genBuf.map sqVal : List Int) : Multiset Int)
            ≤ (s.consumed : Multiset Int) + (∑ j, pendM (s.fwds j))
              + (∑ j, pendM (s.sqs j))
              + ((s.genBuf.map sqVal : List Int) : Multiset Int) := by
              gcongr
          _ ≤ ((S.map sqVal : List Int) : Multiset Int) := flow
      case wgCount =>
        dsimp only
        have hcard := card_update_exited s.fwds i (by rw [hf]; simp)
        rw [wgCount] at *
        omega
      case closedWg =>
        intro hcl
        dsimp only
        have := closedWg hcl
        omega
      case fwdOrd =>
        intro j hj
        exact Or.inr hd
      case sqCloseCount => exact sqCloseCount
      case outCloseCount => exact outCloseCount
  | consume i v hf =>
      have hf1 : (∑ j, pendM (Function.update s.fwds i WState.idle j)) + {v}
          = ∑ j, pendM (s.fwds j) := by
        have := sum_comp_update_zero' pendM s.fwds i WState.idle rfl
        rwa [hf, pendM_sending] at this
      constructor
      case flow =>
        dsimp only
        rw [coe_append, Multiset.coe_singleton]
        calc (s.consumed : Multiset Int) + {v}
              + (∑ j, pendM (Function.update s.fwds i WState.idle j))
              + (∑ j, pendM (s.sqs j))
              + ((s.genBuf.map sqVal : List Int) : Multiset Int)
            = (s.consumed : Multiset Int) + (∑ j, pendM (s.fwds j))
              + (∑ j, pendM (s.sqs j))
              + ((s.genBuf.map sqVal : List Int) : Multiset Int) := by
              rw [← hf1]; abel
          _ ≤ ((S.map sqVal : List Int) : Multiset Int) := flow
      case wgCount =>
        dsimp only
        rw [filter_update_alive s.fwds i _ (by simp) (by rw [hf]; simp)]
        exact wgCount
      case closedWg => exact closedWg
      case fwdOrd =>
        intro j hj
        dsimp only at hj ⊢
        by_cases hji : j = i
        · subst hji
          simp [Function.update] at hj
        · simp [Function.update, hji] at hj
          exact fwdOrd j hj
      case sqCloseCount => exact sqCloseCount
      case outCloseCount => exact outCloseCount
  | closeOut hwg hout =>
      constructor
      case flow => exact flow
      case wgCount => exact wgCount
      case closedWg =>
        intro _
        exact hwg
      case fwdOrd => exact fwdOrd
      case sqCloseCount => exact sqCloseCount
      case outCloseCount =>
        dsimp only
        rw [outCloseCount, hout]
        simp
  | cancel hd =>
      constructor
      case flow => exact flow
      case wgCount => exact wgCount
      case closedWg => exact closedWg
      case fwdOrd =>
        intro j _
        exact Or.inr rfl
      case sqCloseCount => exact sqCloseCount
      case outCloseCount => exact outCloseCount

/-- Every reachable configuration satisfies the invariant. -/
theorem reachC_inv {S : List Int} {k : Nat} {s : Cfg k} (hr : Reach S k s) : Inv S s := by
  induction hr with
  | refl => exact invC_init S k
  | tail hab hbc ih => exact invC_step ih hbc

/-- The `done` flag never goes back: activation persists. -/
theorem done_mono {k : Nat} {s s' : Cfg k} (hs : Step s s') :
    s.done = true → s'.done = true := by
  cases hs <;> intro hd <;> first | exact hd | rfl

/-- Every step of the cancellable pipeline strictly decreases the measure:
all executions, cancelled or not, are finite. -/
theorem measC_step {k : Nat} {s s' : Cfg k} (hs : Step s s') : measC s' < measC s := by
  cases hs with
  | sqRead i v rest hbuf hsq =>
      have h1 := sum_comp_update sqW s.sqs i (WState.sending (sqVal v))
      rw [hsq, sqW_idle, sqW_sending] at h1
      simp only [measC, hbuf, List.length_cons]
      omega
  | sqExitRange i hbuf hsq =>
      have h1 := sum_comp_update sqW s.sqs i WState.exited
      rw [hsq, sqW_idle, sqW_exited, add_zero] at h1
      simp only [measC, sqExitTarget]
      omega
  | sqExitDone i v hsq hd =>
      have h1 := sum_comp_update sqW s.sqs i WState.exited
      rw [hsq, sqW_sending, sqW_exited, add_zero] at h1
      simp only [measC, sqExitTarget]
      omega
  | handoff i v hsq hf =>
      have h1 := sum_comp_update sqW s.sqs i WState.idle
      rw [hsq, sqW_sending, sqW_idle] at h1
      have h2 := sum_comp_update fwW s.fwds i (WState.sending v)
      rw [hf, fwW_idle, fwW_sending] at h2
      simp only [measC]
      omega
  | fwdExitRange i hf hsq =>
      have h2 := sum_comp_update fwW s.fwds i WState.exited
      rw [hf, fwW_idle, fwW_exited, add_zero] at h2
      simp only [measC]
      omega
  | fwdExitDone i v hf hd =>
      have h2 := sum_comp_update fwW s.fwds i WState.exited
      rw [hf, fwW_sending, fwW_exited, add_zero] at h2
      simp only [measC]
      omega
  | consume i v hf =>
      have h2 := sum_comp_update fwW s.fwds i WState.idle
      rw [hf, fwW_sending, fwW_idle] at h2
      simp only [measC]
      omega
  | closeOut hwg hout =>
      simp [measC, hout]
  | cancel hd =>
      simp [measC, hd]

/-- In a terminal configuration of the cancellable pipeline every goroutine
has exited, the WaitGroup is at zero and `out` is closed (the upstream
buffer, however, may retain dropped items). -/
theorem terminalC_drained {S : List Int} {k : Nat} {s : Cfg k}
    (h : Inv S s) (hT : Terminal s) : AllExited s ∧ s.wg = 0 := by
  have hsq : ∀ i, s.sqs i = WState.exited := by
    intro i
    cases hoi : s.sqs i with
    | idle =>
        cases hbuf : s.genBuf with
        | nil => exact absurd (Step.sqExitRange s i hbuf hoi) (hT _)
        | cons v rest => exact absurd (Step.sqRead s i v rest hbuf hoi) (hT _)
    | sending v =>
        cases hfi : s.fwds i with
        | idle => exact absurd (Step.handoff s i v hoi hfi) (hT _)
        | sending w => exact absurd (Step.consume s i w hfi) (hT _)
        | exited =>
            rcases h.fwdOrd i hfi with hx | hx
            · rw [hoi] at hx
              cases hx
            · exact absurd (Step.sqExitDone s i v hoi hx) (hT _)
    | exited => rfl
  have hfwd : ∀ i, s.fwds i = WState.exited := by
    intro i
    cases hfi : s.fwds i with
    | idle => exact absurd (Step.fwdExitRange s i hfi (hsq i)) (hT _)
    | sending w => exact absurd (Step.consume s i w hfi) (hT _)
    | exited => rfl
  have hwg : s.wg = 0 := by
    rw [h.wgCount]
    have hemp : (Finset.univ.filter fun j => s.fwds j ≠ WState.exited) = ∅ := by
      apply Finset.filter_eq_empty_iff.mpr
      intro j _
      simp [hfwd j]
    rw [hemp]
    simp
  have hcl : s.outClosed = true := by
    cases hc : s.outClosed with
    | false => exact absurd (Step.closeOut s hwg hc) (hT _)
    | true => rfl
  exact ⟨⟨hsq, hfwd, hcl⟩, hwg⟩

/-- After cancellation, the pipeline drains without any help from the
consumer: whenever `done` is set and some stage is still running, one of the
goroutines has an enabled step that neither consumes an item nor touches
`done`. -/
theorem drain_progress {S : List Int} {k : Nat} {s : Cfg k}
    (h : Inv S s) (hd : s.done = true) :
    AllExited s ∨ ∃ s', DrainStep s s' := by
  by_cases h1 : ∀ i, s.sqs i = WState.exited
  · by_cases h2 : ∀ i, s.fwds i = WState.exited
    · by_cases h3 : s.outClosed = true
      · exact Or.inl ⟨h1, h2, h3⟩
      · right
        have hwg : s.wg = 0 := by
          rw [h.wgCount]
          have hemp : (Finset.univ.filter fun j => s.fwds j ≠ WState.exited) = ∅ := by
            apply Finset.filter_eq_empty_iff.mpr
            intro j _
            simp [h2 j]
          rw [hemp]
          simp
        have hout : s.outClosed = false := by
          cases hb : s.outClosed with
          | false => rfl
          | true => exact absurd hb h3
        exact ⟨_, Step.closeOut s hwg hout, rfl, rfl⟩
    · right
      push_neg at h2
      obtain ⟨i, hi⟩ := h2
      cases hfi : s.fwds i with
      | idle => exact ⟨_, Step.fwdExitRange s i hfi (h1 i), rfl, rfl⟩
      | sending v => exact ⟨_, Step.fwdExitDone s i v hfi hd, rfl, rfl⟩
      | exited => exact absurd hfi hi
  · right
    push_neg at h1
    obtain ⟨i, hi⟩ := h1
    cases hoi : s.sqs i with
    | idle =>
        cases hbuf : s.genBuf with
        | nil => exact ⟨_, Step.sqExitRange s i hbuf hoi, rfl, rfl⟩
        | cons v rest => exact ⟨_, Step.sqRead s i v rest hbuf hoi, rfl, rfl⟩
    | sending v => exact ⟨_, Step.sqExitDone s i v hoi hd, rfl, rfl⟩
    | exited => exact absurd hoi hi

/-- Any consumed value is the square of some input value. -/
theorem consumed_mem {S : List Int} {k : Nat} {s : Cfg k}
    (h : Inv S s) {v : Int} (hv : v ∈ s.consumed) : v ∈ S.map sqVal := by
  have h1 : v ∈ (s.consumed : Multiset Int) := by simpa using hv
  have h2 : (s.consumed : Multiset Int)
      ≤ (s.consumed : Multiset Int) + (∑ j, pendM (s.fwds j)) + (∑ j, pendM (s.sqs j))
        + ((s.genBuf.map sqVal : List Int) : Multiset Int) :=
    le_trans (le_trans (self_le_add_right _ _) (self_le_add_right _ _))
      (self_le_add_right _ _)
  have h3 := Multiset.mem_of_le (le_trans h2 h.flow) h1
  simpa using h3

/-- Start of the concrete run of `main` in squaring-numbers: input `[2, 3]`,
two `sq` instances. -/
def b0 : Cfg 2 := init [2, 3] 2

/-- `sq` instance 0 has read the value 2 and holds `4` for sending. -/
def b1 : Cfg 2 :=
  { b0 with
    genBuf := [3]
    sqs := Function.update b0.sqs 0 (.sending (sqVal 2)) }

/-- Forwarder 0 has received `4` from `sq` 0 and is blocked sending it on. -/
def b2 : Cfg 2 :=
  { b1 with
    sqs := Function.update b1.sqs 0 .idle
    fwds := Function.update b1.fwds 0 (.sending (sqVal 2)) }

/-- The environment has closed the `done` channel. -/
def b3 : Cfg 2 := { b2 with done := true }

/-- The `select` of forwarder 0 took the send branch *after* cancellation: the
item `4` was delivered to the consumer. -/
def b4 : Cfg 2 :=
  { b3 with
    fwds := Function.update b3.fwds 0 .idle
    consumed := b3.consumed ++ [sqVal 2] }

/-- Alternatively, the `select` of forwarder 0 took the `<-done` branch: it
exited without delivering. -/
def b5 : Cfg 2 :=
  { b3 with
    fwds := Function.update b3.fwds 0 .exited
    wg := b3.wg - 1 }

/-- The environment closed `done` at the very start, before any read. -/
def a1 : Cfg 2 := { b0 with done := true }

/-- `sq` instance 0 performed an upstream read *after* `done` transitioned. -/
def a2 : Cfg 2 :=
  { a1 with
    genBuf := [3]
    sqs := Function.update a1.sqs 0 (.sending (sqVal 2)) }

lemma step_b0_b1 : Step b0 b1 := Step.sqRead b0 0 2 [3] rfl rfl

lemma step_b1_b2 : Step b1 b2 :=
  Step.handoff b1 0 (sqVal 2) (by simp [b1, b0, init, Function.update]) rfl

lemma step_b2_b3 : Step b2 b3 := Step.cancel b2 rfl

lemma step_b3_b4 : Step b3 b4 :=
  Step.consume b3 0 (sqVal 2) (by simp [b3, b2, b1, b0, init, Function.update])

lemma step_b3_b5 : Step b3 b5 :=
  Step.fwdExitDone b3 0 (sqVal 2) (by simp [b3, b2, b1, b0, init, Function.update]) rfl

lemma reach_b3 : Reach [2, 3] 2 b3 :=
  Relation.ReflTransGen.tail
    (Relation.ReflTransGen.tail
      (Relation.ReflTransGen.tail Relation.ReflTransGen.refl step_b0_b1)
      step_b1_b2)
    step_b2_b3

lemma reach_b4 : Reach [2, 3] 2 b4 := Relation.ReflTransGen.tail reach_b3 step_b3_b4

lemma step_b0_a1 : Step b0 a1 := Step.cancel b0 rfl

lemma step_a1_a2 : Step a1 a2 := Step.sqRead a1 0 2 [3] rfl rfl

lemma reach_a2 : Reach [2, 3] 2 a2 :=
  Relation.ReflTransGen.tail
    (Relation.ReflTransGen.tail Relation.ReflTransGen.refl step_b0_a1)
    step_a1_a2

end Cancel

/-- C1: for every finite input `S` and every `k ≥ 1` transform instances
sharing the one `gen` stream, every complete (terminal) execution of the
un-cancelled pipeline delivers to the consumer exactly the multiset
`{sqVal x : x ∈ S}` — no loss, no duplication — and the multiset of
upstream items received across the `sq` instances is exactly `S`, i.e.
each upstream item was delivered to exactly one instance; moreover every
step strictly decreases the measure, so every execution reaches such a
terminal state. -/
theorem C1_uncancelled_multiset (S : List Int) (k : Nat) (s : Plain.Cfg k)
    (hk : 1 ≤ k) (hr : Plain.Reach S k s) (hT : Plain.Terminal s) :
    (s.consumed : Multiset Int) = ((S.map sqVal : List Int) : Multiset Int)
      ∧ (∑ j, ((s.reads j : List Int) : Multiset Int)) = (S : Multiset Int)
      ∧ ∀ (t t' : Plain.Cfg k), Plain.Step t t' → Plain.meas t' < Plain.meas t := by
  have hInv := Plain.reach_inv hr
  obtain ⟨hbuf, hsq, hfwd, _, _⟩ := Plain.terminal_drained hk hInv hT
  refine ⟨?_, ?_, fun t t' hst => Plain.meas_step hst⟩
  · have hflow := hInv.flow
    have hz1 : (∑ j, pendM (s.fwds j)) = 0 :=
      Finset.sum_eq_zero (by intro j _; rw [hfwd j]; rfl)
    have hz2 : (∑ j, pendM (s.sqs j)) = 0 :=
      Finset.sum_eq_zero (by intro j _; rw [hsq j]; rfl)
    rw [hbuf, hz1, hz2] at hflow
    simpa using hflow
  · have hrs := hInv.readsSum
    rw [hbuf] at hrs
    simpa using hrs

/-- Witness for C1: the concrete terminal run of the empty-input,
one-instance pipeline delivers exactly the empty multiset. -/
theorem C1_uncancelled_multiset_witness :
    (Plain.p3.consumed : Multiset Int)
      = ((([] : List Int).map sqVal : List Int) : Multiset Int) :=
  (C1_uncancelled_multiset [] 1 Plain.p3 (by omega) Plain.reach_p3 Plain.terminal_p3).1

/-- C8: along a single producer→single transform edge (one `sq` instance as
the only reader of the `gen` stream, un-cancelled pipeline), order is
preserved: at every reachable configuration the items emitted downstream,
followed by the pending item and the squares of the unread items, are
exactly `sqVal` applied to `S` in upstream order; in particular in a
terminal configuration the instance emitted exactly `S.map sqVal`. -/
theorem C8_single_edge_order (S : List Int) (s : Plain.Cfg 1)
    (hr : Plain.Reach S 1 s) :
    s.emits 0 ++ pendL (s.sqs 0) ++ (s.genBuf.map sqVal) = S.map sqVal
      ∧ (Plain.Terminal s → s.emits 0 = S.map sqVal) := by
  have hInv := Plain.reach_inv hr
  have he := hInv.emitsReads 0
  have hro := hInv.readsOrd 0 rfl
  constructor
  · calc s.emits 0 ++ pendL (s.sqs 0) ++ (s.genBuf.map sqVal)
        = (s.reads 0).map sqVal ++ (s.genBuf.map sqVal) := by rw [he]
      _ = (s.reads 0 ++ s.genBuf).map sqVal := (List.map_append _ _ _).symm
      _ = S.map sqVal := by rw [hro]
  · intro hT
    obtain ⟨hbuf, hsq, _, _, _⟩ := Plain.terminal_drained (by omega) hInv hT
    rw [hsq 0] at he
    simp at he
    rw [hbuf] at hro
    simp at hro
    rw [he, hro]

/-- Witness for C8: in the concrete terminal run of the empty-input
pipeline the single instance emitted exactly the (empty) mapped input. -/
theorem C8_single_edge_order_witness :
    Plain.p3.emits 0 = ([] : List Int).map sqVal :=
  (C8_single_edge_order [] Plain.p3 Plain.reach_p3).2 Plain.terminal_p3

/-- C10: `merge` applied to zero upstream streams: no forwarding goroutine
exists, the WaitGroup counter is zero from the start, the coordinator can
close the output immediately, and every reachable configuration has
delivered zero items; a terminal configuration has the output closed
(exactly once), so a consumer ranging over it never blocks. -/
theorem C10_merge_no_upstreams (S : List Int) :
    (∀ s : Plain.Cfg 0, Plain.Reach S 0 s →
        s.consumed = [] ∧ s.wg = 0
          ∧ (Plain.Terminal s → s.outClosed = true ∧ s.outClose = 1))
      ∧ Plain.Step (Plain.init S 0)
          { Plain.init S 0 with
            outClosed := true, outClose := (Plain.init S 0).outClose + 1 } := by
  have hchar : ∀ s : Plain.Cfg 0, Plain.Reach S 0 s →
      s = Plain.init S 0
        ∨ s = { Plain.init S 0 with
                outClosed := true, outClose := (Plain.init S 0).outClose + 1 } := by
    intro s hr
    induction hr with
    | refl => exact Or.inl rfl
    | tail hab hbc ih =>
        cases hbc with
        | sqRead i v rest hbuf hsq => exact i.elim0
        | sqExit i hbuf hsq => exact i.elim0
        | handoff i v hsq hf => exact i.elim0
        | fwdExit i hf hsq => exact i.elim0
        | consume i v hf => exact i.elim0
        | closeOut hwg hout =>
            rcases ih with hb | hb
            · subst hb
              exact Or.inr rfl
            · subst hb
              simp at hout
  constructor
  · intro s hr
    rcases hchar s hr with hb | hb
    · subst hb
      refine ⟨rfl, rfl, fun hT => ?_⟩
      exact absurd (Plain.Step.closeOut (Plain.init S 0) rfl rfl) (hT _)
    · subst hb
      exact ⟨rfl, rfl, fun _ => ⟨rfl, rfl⟩⟩
  · exact Plain.Step.closeOut (Plain.init S 0) rfl rfl

/-- Witness for C10: with the empty input list, the immediate close step of the coordinator from the initial configuration. -/
theorem C10_merge_no_upstreams_witness :
    Plain.Step (Plain.init [] 0)
      { Plain.init [] 0 with
        outClosed := true, outClose := (Plain.init [] 0).outClose + 1 } :=
  (C10_merge_no_upstreams []).2

/-- C7: `gen` returns a stream that yields exactly the input values in the
same order and is then closed; the channel capacity equals the input
length, so every send completed synchronously without blocking before
`gen` returned (the result is `some`, never a blocked or faulted send);
and the empty input yields an immediately-closed stream with zero items
and no error. -/
theorem C7_gen_spec (nums : List Int) :
    gen nums = some (Chan.mk nums nums.length true 1)
      ∧ gen [] = some (Chan.mk [] 0 true 1) :=
  ⟨gen_eq nums, gen_eq []⟩

/-- C2: in `merge` (both the plain and the cancellable variant), for every
reachable configuration: once the output stream is closed the WaitGroup is
at zero and every forwarder has exited — the coordinator call `wg.Wait()`
strictly precedes `close(out)` — so no forwarder is ever blocked sending
into a closed output (no send-on-closed-stream fault), and the output is
closed at most once (exactly once the coordinator runs). -/
theorem C2_join_then_close (S : List Int) (k : Nat)
    (sc : Cancel.Cfg k) (sp : Plain.Cfg k)
    (hc : Cancel.Reach S k sc) (hp : Plain.Reach S k sp) :
    ((sc.outClosed = true → sc.wg = 0 ∧ ∀ i, sc.fwds i = WState.exited)
      ∧ ¬(sc.outClosed = true ∧ ∃ i v, sc.fwds i = WState.sending v)
      ∧ sc.outClose ≤ 1)
    ∧ ((sp.outClosed = true → sp.wg = 0 ∧ ∀ i, sp.fwds i = WState.exited)
      ∧ ¬(sp.outClosed = true ∧ ∃ i v, sp.fwds i = WState.sending v)
      ∧ sp.outClose ≤ 1) := by
  have hic := Cancel.reachC_inv hc
  have hip := Plain.reach_inv hp
  have hcEx : sc.outClosed = true → ∀ i, sc.fwds i = WState.exited := by
    intro hcl
    apply all_exited_of_card_zero
    have hwg := hic.closedWg hcl
    rw [hic.wgCount] at hwg
    exact hwg
  have hpEx : sp.outClosed = true → ∀ i, sp.fwds i = WState.exited := by
    intro hcl
    apply all_exited_of_card_zero
    have hwg := hip.closedWg hcl
    rw [hip.wgCount] at hwg
    exact hwg
  refine ⟨⟨fun hcl => ⟨hic.closedWg hcl, hcEx hcl⟩, ?_, ?_⟩,
    ⟨fun hcl => ⟨hip.closedWg hcl, hpEx hcl⟩, ?_, ?_⟩⟩
  · rintro ⟨hcl, i, v, hs⟩
    have := hcEx hcl i
    rw [hs] at this
    cases this
  · rw [hic.outCloseCount]
    split <;> omega
  · rintro ⟨hcl, i, v, hs⟩
    have := hpEx hcl i
    rw [hs] at this
    cases this
  · rw [hip.outCloseCount]
    split <;> omega

/-- Witness for C2: the bound on the close count at the initial
configuration of the cancellable pipeline on input `[2, 3]`. -/
theorem C2_join_then_close_witness : (Cancel.init [2, 3] 2).outClose ≤ 1 :=
  (C2_join_then_close [2, 3] 2 (Cancel.init [2, 3] 2) (Plain.init [2, 3] 2)
    Relation.ReflTransGen.refl Relation.ReflTransGen.refl).1.2.2

/-- C3: every stream is closed exactly once by the stage that opened it, on
every exit path.  In every reachable configuration of the cancellable
pipeline the close count of each `sq` output channel is 1 exactly when its `sq`
goroutine has exited (0 before, never more), likewise for the `merge` output
and the coordinator; in a terminal configuration — reached by exhaustion or
by cancellation — every close count is exactly 1; and `gen` closes its own
channel exactly once before returning. -/
theorem C3_streams_closed_once (S : List Int) (k : Nat) (s : Cancel.Cfg k)
    (hr : Cancel.Reach S k s) :
    (∀ i, s.sqClose i = if s.sqs i = WState.exited then 1 else 0)
      ∧ (s.outClose = if s.outClosed then 1 else 0)
      ∧ (Cancel.Terminal s → (∀ i, s.sqClose i = 1) ∧ s.outClose = 1)
      ∧ (∀ nums : List Int, gen nums = some (Chan.mk nums nums.length true 1)) := by
  have hI := Cancel.reachC_inv hr
  refine ⟨hI.sqCloseCount, hI.outCloseCount, fun hT => ?_, gen_eq⟩
  obtain ⟨⟨hsq, hfwd, hcl⟩, hwg⟩ := Cancel.terminalC_drained hI hT
  constructor
  · intro i
    rw [hI.sqCloseCount i, hsq i]
    simp
  · rw [hI.outCloseCount, hcl]
    simp

/-- Witness for C3: the close-count characterisation of the `merge` output at
the initial configuration on input `[2, 3]`. -/
theorem C3_streams_closed_once_witness :
    (Cancel.init [2, 3] 2).outClose
      = if (Cancel.init [2, 3] 2).outClosed then 1 else 0 :=
  (C3_streams_closed_once [2, 3] 2 (Cancel.init [2, 3] 2)
    Relation.ReflTransGen.refl).2.1

/-- C4 counterexample: the claim says `sq` "reads items from its upstream
stream until the upstream closes or the Cancellation Signal transitions,
whichever occurs first".  In the code the `range in` receive is not inside
the `select`, so a read can happen strictly after `done` transitions: from
the initial configuration on input `[2, 3]` the environment first closes
`done` (state `a1`), and `sq` instance 0 then still performs an upstream
read (state `a2`, buffer shrunk, value held) — refuting the claim as
stated. -/
theorem C4_cex :
    Cancel.Step (Cancel.init [2, 3] 2) Cancel.a1
      ∧ Cancel.a1.done = true
      ∧ Cancel.a1.genBuf = [2, 3]
      ∧ Cancel.Step Cancel.a1 Cancel.a2
      ∧ Cancel.a2.genBuf = [3]
      ∧ Cancel.a2.sqs 0 = WState.sending (sqVal 2) := by
  refine ⟨Cancel.Step.cancel Cancel.b0 rfl, rfl, rfl,
    Cancel.Step.sqRead Cancel.a1 0 2 [3] rfl rfl, rfl, ?_⟩
  simp [Cancel.a2, Cancel.a1, Cancel.b0, Cancel.init, Function.update]

/-- C4 as amended: `sq` reads items from upstream until the upstream is
exhausted or it observes cancellation at its send `select`; the transition
of `done` does not by itself stop an enabled read, but a `sq` goroutine
leaves its loop only because the upstream was drained or `done` was set
(first conjunct), and a `sq` blocked on its downstream write with `done`
set can always take the `<-done>` branch and exit rather than deadlock
(second conjunct). -/
theorem C4_sq_reads_until_amended :
    (∀ (k : Nat) (s s' : Cancel.Cfg k), Cancel.Step s s' →
        ∀ i, s.sqs i ≠ WState.exited → s'.sqs i = WState.exited →
          s.genBuf = [] ∨ s.done = true)
      ∧ (∀ (k : Nat) (s : Cancel.Cfg k) (i : Fin k) (v : Int),
          s.sqs i = WState.sending v → s.done = true →
            Cancel.Step s (Cancel.sqExitTarget s i)) := by
  constructor
  · intro k s s' hs i hne hex
    cases hs with
    | sqRead j v rest hbuf hsq =>
        by_cases hij : i = j
        · subst hij
          simp [Function.update] at hex
        · simp [Function.update, hij] at hex
          exact absurd hex hne
    | sqExitRange j hbuf hsq => exact Or.inl hbuf
    | sqExitDone j v hsq hd => exact Or.inr hd
    | handoff j v hsq hf =>
        by_cases hij : i = j
        · subst hij
          simp [Function.update] at hex
        · simp [Function.update, hij] at hex
          exact absurd hex hne
    | fwdExitRange j hf hsq => exact absurd hex hne
    | fwdExitDone j v hf hd => exact absurd hex hne
    | consume j v hf => exact absurd hex hne
    | closeOut hwg hout => exact absurd hex hne
    | cancel hd => exact absurd hex hne
  · intro k s i v hsq hd
    exact Cancel.Step.sqExitDone s i v hsq hd

/-- Witness for the amended C4: in the concrete post-cancellation state
`a2`, `sq` instance 0 is blocked sending with `done` set, and the exit step
is enabled. -/
theorem C4_sq_reads_until_amended_witness :
    Cancel.Step Cancel.a2 (Cancel.sqExitTarget Cancel.a2 0) :=
  C4_sq_reads_until_amended.2 2 Cancel.a2 0 (sqVal 2)
    (by simp [Cancel.a2, Cancel.a1, Cancel.b0, Cancel.init, Function.update]) rfl

/-- C5 counterexample: activation of the Cancellation Signal is
`close(done)` on a Go channel.  Closing an open channel succeeds, but
activating a second time — closing the already-closed channel — is a
runtime fault (`none`), not a no-op, refuting the claim that repeated
activation is a no-op with the same observable effect. -/
theorem C5_cex :
    Chan.closeCh (Chan.mk [] 0 false 0) = some (Chan.mk [] 0 true 1)
      ∧ Chan.closeCh (Chan.mk [] 0 true 1) = none := by
  constructor <;> rfl

/-- C5 as amended: in this program the Cancellation Signal is activated at
most once (the single deferred `close(done)` in main); a first activation
succeeds and marks the signal, but activating an already-activated signal
is a runtime fault, not a no-op; once activated, the signal stays activated
for the rest of the run, so all later observations by all stages agree. -/
theorem C5_activation_amended :
    (∀ c : Chan, c.closed = false →
        Chan.closeCh c = some { c with closed := true, closeCount := c.closeCount + 1 })
      ∧ (∀ c : Chan, c.closed = true → Chan.closeCh c = none)
      ∧ (∀ (k : Nat) (s s' : Cancel.Cfg k), Cancel.Step s s' →
          s.done = true → s'.done = true) := by
  refine ⟨?_, ?_, fun k s s' hs => Cancel.done_mono hs⟩
  · intro c hc
    simp [Chan.closeCh, hc]
  · intro c hc
    simp [Chan.closeCh, hc]

/-- Witness for the amended C5: along the concrete step from `b3` to `b4`
the activated signal stays activated. -/
theorem C5_activation_amended_witness : Cancel.b4.done = true :=
  C5_activation_amended.2.2 2 Cancel.b3 Cancel.b4 Cancel.step_b3_b4 rfl

/-- C6: on input `[2, 3]` with two `sq` instances, for every reachable
configuration of the cancellable pipeline: every value the consumer has
read is 4 or 9 (so a consumer that reads exactly one item sees exactly one
of `{4, 9}`); once the Cancellation Signal is set, either all stages have
terminated (`AllExited`) or some goroutine still has an enabled step that
needs no consumer; and every step strictly decreases the measure — hence
every execution, in particular read-one-then-cancel, ends with all stages
terminated and the program does not hang. -/
theorem C6_read_one_then_cancel (s : Cancel.Cfg 2)
    (hr : Cancel.Reach [2, 3] 2 s) :
    (∀ v ∈ s.consumed, v = 4 ∨ v = 9)
      ∧ (s.done = true → Cancel.AllExited s ∨ ∃ s', Cancel.DrainStep s s')
      ∧ (∀ t t' : Cancel.Cfg 2, Cancel.Step t t' → Cancel.measC t' < Cancel.measC t) := by
  have hI := Cancel.reachC_inv hr
  refine ⟨?_, fun hd => Cancel.drain_progress hI hd,
    fun t t' hst => Cancel.measC_step hst⟩
  intro v hv
  have hm := Cancel.consumed_mem hI hv
  simp [sqVal] at hm
  exact hm

/-- Witness for C6: in the concrete reachable state `b4`, in which the
consumer has read one item after cancellation, that item is 4 or 9. -/
theorem C6_read_one_then_cancel_witness : (4 : Int) = 4 ∨ (4 : Int) = 9 :=
  (C6_read_one_then_cancel Cancel.b4 Cancel.reach_b4).1 4
    (by simp [Cancel.b4, Cancel.b3, Cancel.b2, Cancel.b1, Cancel.b0, Cancel.init, sqVal])

/-- C9: after `done` is closed a stage may still deliver one more item.
For the forwarder `select`: `b3` is reachable in the run on `[2, 3]`, has
`done` set and forwarder 0 blocked sending `4`; from it one enabled step
(`b4`) delivers the item to the consumer and a different enabled step
(`b5`) takes the `<-done` branch and exits.  For the `sq` `select`: in the
reachable state `a2`, with `done` set and `sq` 0 holding `4`, both the
downstream handoff and the `<-done` exit are enabled.  So the `select` may
take either branch when both are ready, and activation does not guarantee
that no further items are emitted — each stage only stops at a subsequent
suspension point. -/
theorem C9_post_cancel_delivery :
    (Cancel.Reach [2, 3] 2 Cancel.b3
      ∧ Cancel.b3.done = true
      ∧ Cancel.Step Cancel.b3 Cancel.b4
      ∧ Cancel.b4.consumed = [4]
      ∧ Cancel.Step Cancel.b3 Cancel.b5
      ∧ Cancel.b5.fwds 0 = WState.exited
      ∧ Cancel.b4 ≠ Cancel.b5)
    ∧ (Cancel.Reach [2, 3] 2 Cancel.a2
      ∧ Cancel.a2.done = true
      ∧ Cancel.Step Cancel.a2
          { Cancel.a2 with
            sqs := Function.update Cancel.a2.sqs 0 .idle
            fwds := Function.update Cancel.a2.fwds 0 (.sending (sqVal 2)) }
      ∧ Cancel.Step Cancel.a2 (Cancel.sqExitTarget Cancel.a2 0)) := by
  refine ⟨⟨Cancel.reach_b3, rfl, Cancel.step_b3_b4, ?_, Cancel.step_b3_b5, ?_, ?_⟩,
    Cancel.reach_a2, rfl,
    Cancel.Step.handoff Cancel.a2 0 (sqVal 2)
      (by simp [Cancel.a2, Cancel.a1, Cancel.b0, Cancel.init, Function.update]) rfl,
    Cancel.Step.sqExitDone Cancel.a2 0 (sqVal 2)
      (by simp [Cancel.a2, Cancel.a1, Cancel.b0, Cancel.init, Function.update]) rfl⟩
  · simp [Cancel.b4, Cancel.b3, Cancel.b2, Cancel.b1, Cancel.b0, Cancel.init, sqVal]
  · simp [Cancel.b5, Function.update]
  · intro h
    have hcons := congrArg Cancel.Cfg.consumed h
    simp [Cancel.b4, Cancel.b5, Cancel.b3, Cancel.b2, Cancel.b1, Cancel.b0,
      Cancel.init] at hcons

end Concurrency
